import Mathlib

/-!
Verification development for the `avr-ws2812b` crate (`src/lib.rs`), a WS2812B
LED-strip driver for AVR microcontrollers.

The driver's observable behaviour is its sequence of hardware effects: port
register writes (`st` instructions), `nop` cycles inside the pulse primitives,
microsecond delays, and pin configuration calls.  We embed the driver as pure
Lean functions that thread the 8-bit port register contents explicitly and
return the emitted effect trace as a list of `Event`s.

The crates `avr_pin` and `avr_delay` are external collaborators (spec §6), not
part of this repository: `Pin::from_pid` is modelled as an arbitrary resolution
function `fromPid : Nat → Option Pin`, `delay_us(n)` as the trace event
`Event.delayUs n`, and `set_ddr` / `write` as their own trace events.
-/

namespace WS2812BDriver

/-- Modelled from the spec: the external `avr_pin` `Pin` resource.  Only the
single-bit mask within the port byte matters to this driver; the port register
contents are threaded through the embedding explicitly as a `Nat`. -/
structure Pin where
  mask : Nat
deriving DecidableEq

/-- One observable hardware effect, in emission order: a port register write
(`st`, 2 cycles), a `nop` (1 cycle), a busy-wait of `n` microseconds, a data
direction configuration, or a logical pin write. -/
inductive Event where
  | st (val : Nat)
  | nop
  | delayUs (n : Nat)
  | setDDROutput
  | pinWrite (level : Bool)
deriving DecidableEq

/-- 8-bit complement: `!mask` on a Rust `u8`. -/
def not8 (m : Nat) : Nat := 255 ^^^ m

/-- Embeds `send_0`: `high = *pin.port | pin.mask`, `low = *pin.port & !pin.mask`,
then the asm block `st high; nop; nop; nop; nop; st low`.  Returns the port
byte after the pulse and the emitted events. -/
def send_0 (mask port : Nat) : Nat × List Event :=
  let high := port ||| mask
  let low := port &&& not8 mask
  (low, [Event.st high, Event.nop, Event.nop, Event.nop, Event.nop, Event.st low])

/-- Embeds `send_1`: same `high`/`low` computation, asm block
`st high; nop ×11; st low`. -/
def send_1 (mask port : Nat) : Nat × List Event :=
  let high := port ||| mask
  let low := port &&& not8 mask
  (low, [Event.st high,
    Event.nop, Event.nop, Event.nop, Event.nop, Event.nop, Event.nop,
    Event.nop, Event.nop, Event.nop, Event.nop, Event.nop,
    Event.st low])

/-- Embeds the `RGB` pixel color struct (`r`, `g`, `b` are `u8` fields). -/
structure RGB where
  r : Nat
  g : Nat
  b : Nat
deriving DecidableEq

/-- Embeds `RGB::to_bytes`: `[self.g, self.r, self.b]`. -/
def RGB.to_bytes (c : RGB) : List Nat := [c.g, c.r, c.b]

/-- Embeds the inner `while mask != 0` bit loop of `upload`: test
`data & mask > 0`, emit `send_1` or `send_0`, `delay_us(1)`, shift the mask
right by one. -/
def bitLoop (pmask data bmask port : Nat) : Nat × List Event :=
  if h : bmask = 0 then (port, [])
  else
    let s := if data &&& bmask > 0 then send_1 pmask port else send_0 pmask port
    let rest := bitLoop pmask data (bmask / 2) s.1
    (rest.1, s.2 ++ Event.delayUs 1 :: rest.2)
termination_by bmask
decreasing_by exact Nat.div_lt_self (Nat.pos_of_ne_zero h) one_lt_two

/-- Embeds the `for data in (*rgb).to_bytes()` loop body of `upload`: one
`bitLoop` starting at mask `0x80` per byte. -/
def byteLoop (pmask : Nat) (bytes : List Nat) (port : Nat) : Nat × List Event :=
  match bytes with
  | [] => (port, [])
  | d :: rest =>
    let s := bitLoop pmask d 128 port
    let t := byteLoop pmask rest s.1
    (t.1, s.2 ++ t.2)

/-- Embeds the `for rgb in buffer` loop of `upload`. -/
def colorLoop (pmask : Nat) (buffer : List RGB) (port : Nat) : Nat × List Event :=
  match buffer with
  | [] => (port, [])
  | c :: rest =>
    let s := byteLoop pmask c.to_bytes port
    let t := colorLoop pmask rest s.1
    (t.1, s.2 ++ t.2)

/-- Embeds the `WS2812B` device handle struct. -/
structure WS2812B where
  data_line_pid : Nat
deriving DecidableEq

/-- Embeds `WS2812B::new`. -/
def WS2812B.new (data_line_pid : Nat) : WS2812B := ⟨data_line_pid⟩

/-- Embeds `WS2812B::init`: resolve the pid (external `Pin::from_pid`, passed
as `fromPid`); on failure return `false` with no effects; on success call
`set_ddr(DD::Output)` then `write(false)` and return `true`. -/
def WS2812B.init (fromPid : Nat → Option Pin) (self : WS2812B) : Bool × List Event :=
  match fromPid self.data_line_pid with
  | none => (false, [])
  | some _pin => (true, [Event.setDDROutput, Event.pinWrite false])

/-- Embeds `WS2812B::upload`: resolve the pid; on failure return `false` with
no effects; on success run the color/byte/bit loops, then `delay_us(50)` and
return `true`.  Result: `(flag, final port byte, trace)`. -/
def WS2812B.upload (fromPid : Nat → Option Pin) (self : WS2812B)
    (buffer : List RGB) (port : Nat) : Bool × Nat × List Event :=
  match fromPid self.data_line_pid with
  | none => (false, port, [])
  | some pin =>
    let s := colorLoop pin.mask buffer port
    (true, s.1, s.2 ++ [Event.delayUs 50])

/-! Spec-side definitions, following the spec's words, to be compared with the
traces the embedding produces. -/

/-- Spec-side: the bits of a byte from bit 7 down to bit 0. -/
def byteBits (data : Nat) : List Bool :=
  [data.testBit 7, data.testBit 6, data.testBit 5, data.testBit 4,
   data.testBit 3, data.testBit 2, data.testBit 1, data.testBit 0]

/-- Spec-side: the wire bit sequence of a buffer — each color's bytes in order
green, red, blue, each byte most-significant bit first. -/
def wireBits (buffer : List RGB) : List Bool :=
  (buffer.map (fun c => ((c.to_bytes.map byteBits).flatten))).flatten

/-- Spec-side: the port byte after a pulse drives the line low. -/
def lowOf (mask port : Nat) : Nat := port &&& not8 mask

/-- Spec-side: the bare pulse waveform of one bit (no margin delay). -/
def rawPulse (mask port : Nat) (b : Bool) : List Event :=
  (if b then send_1 mask port else send_0 mask port).2

/-- Spec-side: one bit pulse followed by its 1 µs margin delay. -/
def pulseTrace (mask port : Nat) (b : Bool) : List Event :=
  rawPulse mask port b ++ [Event.delayUs 1]

/-- Spec-side: the pulse train of a bit sequence, threading the port byte
(after the first pulse the line is low and stays low between pulses). -/
def pulsesFromBits (mask port : Nat) : List Bool → List Event
  | [] => []
  | b :: rest => pulseTrace mask port b ++ pulsesFromBits mask (lowOf mask port) rest

/-- Spec-side: the bare pulse waveforms of a bit sequence, one list per bit. -/
def rawPulses (mask port : Nat) : List Bool → List (List Event)
  | [] => []
  | b :: rest => rawPulse mask port b :: rawPulses mask (lowOf mask port) rest

/-- Spec-side: append exactly one 1 µs margin delay after every pulse. -/
def margined (ps : List (List Event)) : List Event :=
  (ps.map (fun p => p ++ [Event.delayUs 1])).flatten

/-- Cycle cost of one event inside a pulse asm block: `st` is 2 ticks, `nop`
is 1 tick (the source's own comments). -/
def ticks : Event → Nat
  | Event.st _ => 2
  | Event.nop => 1
  | _ => 0

/-- Total cycle count of a pulse trace. -/
def traceTicks (l : List Event) : Nat := (l.map ticks).sum

/-- High-hold duration of a pulse trace in cycles: total minus the 2 ticks of
the initial `st` that first drives the line high. -/
def highHoldTicks (l : List Event) : Nat := traceTicks l - 2

/-! Helper lemmas. -/

lemma lowOf_idem (m p : Nat) : lowOf m (lowOf m p) = lowOf m p := by
  simp [lowOf, Nat.and_assoc]

lemma testBit_255 (i : Nat) : (255 : Nat).testBit i = decide (i < 8) := by
  have h : (255 : Nat) = 2 ^ 8 - 1 := by norm_num
  rw [h, Nat.testBit_two_pow_sub_one]

lemma testBit_not8 (m i : Nat) :
    (not8 m).testBit i = (decide (i < 8)).xor (m.testBit i) := by
  simp [not8, Nat.testBit_xor, testBit_255]

lemma or_low_absorb (m p : Nat) (hp : p < 256) : lowOf m p ||| m = p ||| m := by
  apply Nat.eq_of_testBit_eq
  intro i
  rcases lt_or_ge i 8 with h8 | h8
  · simp only [lowOf, Nat.testBit_or, Nat.testBit_and, testBit_not8, h8, decide_True]
    cases p.testBit i <;> cases m.testBit i <;> rfl
  · have hp' : p.testBit i = false := by
      refine Nat.testBit_lt_two_pow (lt_of_lt_of_le hp ?_)
      calc (256 : Nat) = 2 ^ 8 := by norm_num
        _ ≤ 2 ^ i := Nat.pow_le_pow_right (by norm_num) h8
    simp [lowOf, Nat.testBit_or, Nat.testBit_and, hp']

lemma and_two_pow_pos (d k : Nat) : (0 < d &&& 2 ^ k) ↔ d.testBit k = true := by
  constructor
  · intro h
    by_contra hb
    have hb' : d.testBit k = false := Bool.eq_false_iff.mpr hb
    have : d &&& 2 ^ k = 0 := by
      apply Nat.eq_of_testBit_eq
      intro i
      simp only [Nat.testBit_and, Nat.zero_testBit]
      rcases eq_or_ne i k with rfl | hik
      · simp [hb']
      · simp [Nat.testBit_two_pow, hik.symm]
    omega
  · intro h
    have : (d &&& 2 ^ k).testBit k = true := by
      simp [Nat.testBit_and, h, Nat.testBit_two_pow]
    rcases Nat.eq_zero_or_pos (d &&& 2 ^ k) with hz | hpos
    · rw [hz] at this
      simp [Nat.zero_testBit] at this
    · exact hpos

lemma send_0_fst (m p : Nat) : (send_0 m p).1 = lowOf m p := rfl

lemma send_1_fst (m p : Nat) : (send_1 m p).1 = lowOf m p := rfl

/-- Spec-side: the bits of `data` from bit `k-1` down to bit 0. -/
def bitsMSB (data : Nat) : Nat → List Bool
  | 0 => []
  | k + 1 => data.testBit k :: bitsMSB data k

lemma byteBits_eq_bitsMSB (data : Nat) : byteBits data = bitsMSB data 8 := rfl

lemma bitLoop_zero (pmask data port : Nat) : bitLoop pmask data 0 port = (port, []) := by
  rw [bitLoop.eq_def]
  rfl

lemma bitLoop_ne (pmask data bmask port : Nat) (h : bmask ≠ 0) :
    bitLoop pmask data bmask port =
      ((bitLoop pmask data (bmask / 2) (lowOf pmask port)).1,
       (if data &&& bmask > 0 then send_1 pmask port else send_0 pmask port).2
         ++ Event.delayUs 1 :: (bitLoop pmask data (bmask / 2) (lowOf pmask port)).2) := by
  rw [bitLoop.eq_def, dif_neg h]
  by_cases hc : data &&& bmask > 0 <;> simp [hc, send_1_fst, send_0_fst]

lemma bitLoop_pow (pmask data : Nat) :
    ∀ k port, bitLoop pmask data (2 ^ k) port =
      (lowOf pmask port, pulsesFromBits pmask port (bitsMSB data (k + 1))) := by
  intro k
  induction k with
  | zero =>
    intro port
    have h1 : (2 : Nat) ^ 0 = 1 := pow_zero 2
    rw [h1, bitLoop_ne pmask data 1 port one_ne_zero]
    have hdiv : (1 : Nat) / 2 = 0 := rfl
    rw [hdiv, bitLoop_zero]
    by_cases hc : data &&& 1 > 0
    · have hb : data.testBit 0 = true := (and_two_pow_pos data 0).mp (by simpa using hc)
      rw [if_pos hc]
      simp [bitsMSB, pulsesFromBits, pulseTrace, rawPulse, hb]
    · have hb : data.testBit 0 = false := by
        by_contra hbt
        refine hc ?_
        have hbt' : data.testBit 0 = true := by
          cases hx : data.testBit 0
          · exact absurd hx hbt
          · rfl
        have := (and_two_pow_pos data 0).mpr hbt'
        simpa using this
      rw [if_neg hc]
      simp [bitsMSB, pulsesFromBits, pulseTrace, rawPulse, hb]
  | succ k ih =>
    intro port
    have h1 : (2 : Nat) ^ (k + 1) ≠ 0 := (Nat.two_pow_pos (k + 1)).ne'
    rw [bitLoop_ne pmask data _ port h1]
    have hdiv : (2 : Nat) ^ (k + 1) / 2 = 2 ^ k := by
      rw [Nat.pow_succ]
      exact Nat.mul_div_cancel _ (by norm_num)
    rw [hdiv, ih (lowOf pmask port), lowOf_idem]
    by_cases hb : data.testBit (k + 1) = true
    · have hc : data &&& 2 ^ (k + 1) > 0 := (and_two_pow_pos data (k + 1)).mpr hb
      simp [hc, bitsMSB, pulsesFromBits, pulseTrace, rawPulse, hb]
    · have hb' : data.testBit (k + 1) = false := Bool.eq_false_iff.mpr hb
      have hc : ¬ (data &&& 2 ^ (k + 1) > 0) := fun hpos =>
        hb ((and_two_pow_pos data (k + 1)).mp hpos)
      simp [hc, bitsMSB, pulsesFromBits, pulseTrace, rawPulse, hb']

lemma bitLoop_128 (pmask data port : Nat) :
    bitLoop pmask data 128 port =
      (lowOf pmask port, pulsesFromBits pmask port (byteBits data)) := by
  have h : (128 : Nat) = 2 ^ 7 := by norm_num
  rw [h, bitLoop_pow, byteBits_eq_bitsMSB]

lemma pulsesFromBits_low_append (m p : Nat) (l1 l2 : List Bool) :
    pulsesFromBits m (lowOf m p) (l1 ++ l2) =
      pulsesFromBits m (lowOf m p) l1 ++ pulsesFromBits m (lowOf m p) l2 := by
  induction l1 with
  | nil => rfl
  | cons b t ih =>
    simp only [List.cons_append, pulsesFromBits, lowOf_idem, List.append_eq]
    rw [ih]
    simp [List.append_assoc]

lemma pulsesFromBits_append (m p : Nat) (l1 l2 : List Bool) (h : l1 ≠ []) :
    pulsesFromBits m p (l1 ++ l2) =
      pulsesFromBits m p l1 ++ pulsesFromBits m (lowOf m p) l2 := by
  cases l1 with
  | nil => exact absurd rfl h
  | cons b t =>
    simp only [List.cons_append, pulsesFromBits, List.append_eq]
    rw [pulsesFromBits_low_append]
    simp [List.append_assoc]

/-- Per-color wire bits: the three wire bytes' bits, 24 in all. -/
def colorBits (c : RGB) : List Bool := (c.to_bytes.map byteBits).flatten

lemma colorBits_ne_nil (c : RGB) : colorBits c ≠ [] := by
  simp [colorBits, RGB.to_bytes, byteBits]

lemma byteBits_ne_nil (d : Nat) : byteBits d ≠ [] := by
  simp [byteBits]

lemma byteLoop_rgb (m p : Nat) (c : RGB) :
    byteLoop m c.to_bytes p = (lowOf m p, pulsesFromBits m p (colorBits c)) := by
  show byteLoop m [c.g, c.r, c.b] p = _
  simp only [byteLoop, bitLoop_128, lowOf_idem]
  have hcb : colorBits c = byteBits c.g ++ (byteBits c.r ++ byteBits c.b) := by
    simp [colorBits, RGB.to_bytes]
  rw [hcb, pulsesFromBits_append m p _ _ (byteBits_ne_nil c.g),
    pulsesFromBits_append m (lowOf m p) _ _ (byteBits_ne_nil c.r), lowOf_idem]
  simp [List.append_assoc]

lemma wireBits_nil : wireBits [] = [] := rfl

lemma wireBits_cons (c : RGB) (rest : List RGB) :
    wireBits (c :: rest) = colorBits c ++ wireBits rest := by
  simp [wireBits, colorBits]

lemma colorLoop_eq (m : Nat) (buffer : List RGB) :
    ∀ p, colorLoop m buffer p =
      ((if buffer.isEmpty then p else lowOf m p),
       pulsesFromBits m p (wireBits buffer)) := by
  induction buffer with
  | nil =>
    intro p
    rfl
  | cons c rest ih =>
    intro p
    simp only [colorLoop, byteLoop_rgb, ih (lowOf m p), lowOf_idem]
    rw [wireBits_cons]
    cases rest with
    | nil =>
      simp [pulsesFromBits_append m p _ _ (colorBits_ne_nil c), wireBits_nil,
        pulsesFromBits]
    | cons c2 rest2 =>
      simp [pulsesFromBits_append m p _ _ (colorBits_ne_nil c)]

/-- The central trace characterization of a successful `upload`: the emitted
events are exactly the pulse train of the buffer's wire bits, one 1 µs margin
delay after each pulse, followed by the single 50 µs latch delay. -/
lemma upload_trace (fromPid : Nat → Option Pin) (self : WS2812B) (buffer : List RGB)
    (port : Nat) (pin : Pin) (h : fromPid self.data_line_pid = some pin) :
    WS2812B.upload fromPid self buffer port =
      (true, (if buffer.isEmpty then port else lowOf pin.mask port),
       pulsesFromBits pin.mask port (wireBits buffer) ++ [Event.delayUs 50]) := by
  simp only [WS2812B.upload, h, colorLoop_eq]

lemma wireBits_length (buffer : List RGB) : (wireBits buffer).length = 24 * buffer.length := by
  induction buffer with
  | nil => rfl
  | cons c rest ih =>
    rw [wireBits_cons, List.length_append, ih]
    have hc : (colorBits c).length = 24 := by
      simp [colorBits, RGB.to_bytes, byteBits]
    rw [hc, List.length_cons]
    ring

lemma margined_rawPulses (m p : Nat) (l : List Bool) :
    margined (rawPulses m p l) = pulsesFromBits m p l := by
  induction l generalizing p with
  | nil => rfl
  | cons b t ih =>
    have ih' := ih (lowOf m p)
    unfold margined at ih'
    simp only [rawPulses, margined, List.map_cons, List.flatten_cons, ih']
    simp [pulsesFromBits, pulseTrace]

lemma count_delay1_pulseTrace (m p : Nat) (b : Bool) :
    (pulseTrace m p b).count (Event.delayUs 1) = 1 := by
  cases b <;> rfl

lemma count_delay1_pulses (m p : Nat) (l : List Bool) :
    (pulsesFromBits m p l).count (Event.delayUs 1) = l.length := by
  induction l generalizing p with
  | nil => rfl
  | cons b t ih =>
    simp [pulsesFromBits, List.count_append, count_delay1_pulseTrace, ih, Nat.add_comm]

lemma count_delay50_pulseTrace (m p : Nat) (b : Bool) :
    (pulseTrace m p b).count (Event.delayUs 50) = 0 := by
  cases b <;> rfl

lemma count_delay50_pulses (m p : Nat) (l : List Bool) :
    (pulsesFromBits m p l).count (Event.delayUs 50) = 0 := by
  induction l generalizing p with
  | nil => rfl
  | cons b t ih =>
    simp [pulsesFromBits, List.count_append, count_delay50_pulseTrace, ih]

/-- Number of port register writes (`st` events) in a trace. -/
def stCount (l : List Event) : Nat :=
  l.countP fun e => match e with
    | Event.st _ => true
    | _ => false

lemma stCount_append (l1 l2 : List Event) : stCount (l1 ++ l2) = stCount l1 + stCount l2 :=
  List.countP_append _ _ _

lemma stCount_pulseTrace (m p : Nat) (b : Bool) : stCount (pulseTrace m p b) = 2 := by
  cases b <;> rfl

lemma stCount_pulses (m p : Nat) (l : List Bool) :
    stCount (pulsesFromBits m p l) = 2 * l.length := by
  induction l generalizing p with
  | nil => rfl
  | cons b t ih =>
    simp only [pulsesFromBits, stCount_append, stCount_pulseTrace, ih, List.length_cons]
    ring

lemma pulseTrace_lowPort (m p : Nat) (hp : p < 256) (b : Bool) :
    pulseTrace m (lowOf m p) b = pulseTrace m p b := by
  have h1 : lowOf m p ||| m = p ||| m := or_low_absorb m p hp
  have h2 : lowOf m p &&& not8 m = p &&& not8 m := by
    have h := lowOf_idem m p
    simpa [lowOf] using h
  cases b <;> simp [pulseTrace, rawPulse, send_0, send_1, h1, h2]

lemma pulsesFromBits_lowPort (m p : Nat) (hp : p < 256) (l : List Bool) :
    pulsesFromBits m (lowOf m p) l = pulsesFromBits m p l := by
  cases l with
  | nil => rfl
  | cons b t =>
    simp only [pulsesFromBits, lowOf_idem, pulseTrace_lowPort m p hp b]

/-! Concrete resolution environment used by the witness theorems. -/

/-- A concrete pin for witnesses. -/
def exPin : Pin := ⟨2⟩

/-- A concrete resolution function: pid 5 resolves to `exPin`, all others fail. -/
def exFromPid : Nat → Option Pin := fun pid => if pid = 5 then some exPin else none

/-- A handle whose pid resolves. -/
def exDev : WS2812B := WS2812B.new 5

/-- A handle whose pid does not resolve. -/
def exDevBad : WS2812B := WS2812B.new 6

/-- A one-pixel buffer (the spec's scenario `{r:255,g:128,b:1}`). -/
def exBuf : List RGB := [⟨255, 128, 1⟩]

/-! Claim theorems. -/

/-- C1: for every buffer of N colors and every identifier that resolves to a
pin, `upload` emits exactly the pulse train of the buffer's wire-bit sequence
(each color's bytes in order green, red, blue, each byte from bit 7 down to
bit 0): the k-th pulse is `send_1`'s waveform when the k-th wire bit is set and
`send_0`'s otherwise, and the wire-bit sequence has length 24×N. -/
theorem upload_emits_wire_bit_pulses (fromPid : Nat → Option Pin) (self : WS2812B)
    (buffer : List RGB) (port : Nat) (pin : Pin)
    (h : fromPid self.data_line_pid = some pin) :
    (WS2812B.upload fromPid self buffer port).2.2 =
      pulsesFromBits pin.mask port (wireBits buffer) ++ [Event.delayUs 50] ∧
    (wireBits buffer).length = 24 * buffer.length := by
  refine ⟨?_, wireBits_length buffer⟩
  rw [upload_trace fromPid self buffer port pin h]

/-- C1 witness: the theorem applied at a concrete device and buffer. -/
theorem upload_emits_wire_bit_pulses_witness :
    ((WS2812B.upload exFromPid exDev exBuf 0).2.2 =
      pulsesFromBits exPin.mask 0 (wireBits exBuf) ++ [Event.delayUs 50]) ∧
    (wireBits exBuf).length = 24 * exBuf.length :=
  upload_emits_wire_bit_pulses exFromPid exDev exBuf 0 exPin rfl

/-- C2: for every Color Value with 8-bit channels r, g, b, `to_bytes` returns
exactly `[g, r, b]`, each channel passed through verbatim. -/
theorem to_bytes_wire_order (r g b : Nat) (hr : r < 256) (hg : g < 256) (hb : b < 256) :
    (RGB.mk r g b).to_bytes = [g, r, b] := rfl

/-- C2 witness: the theorem applied at a concrete color. -/
theorem to_bytes_wire_order_witness : (RGB.mk 7 200 255).to_bytes = [200, 7, 255] :=
  to_bytes_wire_order 7 200 255 (by norm_num) (by norm_num) (by norm_num)

/-- C3: `init` and `upload` return false iff the identifier does not resolve;
on that failure they emit no events and leave the port byte unchanged, and
whenever resolution succeeds `upload` returns true for every buffer. -/
theorem resolution_failure_semantics (fromPid : Nat → Option Pin) (self : WS2812B)
    (buffer : List RGB) (port : Nat) :
    ((WS2812B.init fromPid self).1 = false ↔ fromPid self.data_line_pid = none) ∧
    ((WS2812B.upload fromPid self buffer port).1 = false ↔
      fromPid self.data_line_pid = none) ∧
    (fromPid self.data_line_pid = none →
      (WS2812B.init fromPid self).2 = [] ∧
      (WS2812B.upload fromPid self buffer port).2.2 = [] ∧
      (WS2812B.upload fromPid self buffer port).2.1 = port) ∧
    (∀ pin, fromPid self.data_line_pid = some pin →
      (WS2812B.upload fromPid self buffer port).1 = true) := by
  cases h : fromPid self.data_line_pid <;> simp [WS2812B.init, WS2812B.upload, h]

/-- C3 witness: the failure branch of the theorem applied at a concrete
unresolvable device. -/
theorem resolution_failure_semantics_witness :
    (WS2812B.init exFromPid exDevBad).2 = [] ∧
    (WS2812B.upload exFromPid exDevBad exBuf 0).2.2 = [] ∧
    (WS2812B.upload exFromPid exDevBad exBuf 0).2.1 = 0 :=
  (resolution_failure_semantics exFromPid exDevBad exBuf 0).2.2.1 rfl

/-- C4 counterexample: the total cycle counts of `send_0` and `send_1` are NOT
equal — at any concrete pin the `send_0` asm block is 8 cycles while `send_1`
is 15 cycles, so the two pulses do not occupy the same total bit period. -/
theorem send_period_counterexample :
    traceTicks (send_0 1 0).2 ≠ traceTicks (send_1 1 0).2 := by decide

/-- C4 (amended): the logical-1 high-hold (13 cycles) is markedly longer than
the logical-0 high-hold (6 cycles), but the total cycle counts differ
(8 vs 15 cycles): the primitives do not share a total bit period. -/
theorem send_period_amended (mask port : Nat) :
    traceTicks (send_0 mask port).2 = 8 ∧
    traceTicks (send_1 mask port).2 = 15 ∧
    highHoldTicks (send_0 mask port).2 = 6 ∧
    highHoldTicks (send_1 mask port).2 = 13 ∧
    highHoldTicks (send_0 mask port).2 < highHoldTicks (send_1 mask port).2 := by
  have h0 : highHoldTicks (send_0 mask port).2 = 6 := rfl
  have h1 : highHoldTicks (send_1 mask port).2 = 13 := rfl
  refine ⟨rfl, rfl, h0, h1, ?_⟩
  rw [h0, h1]
  norm_num

/-- C5: for every identifier that resolves to a pin, `init` returns true and
emits exactly the direction-to-output configuration followed by the
logical-low write, in that order, and nothing else. -/
theorem init_success_effects (fromPid : Nat → Option Pin) (self : WS2812B) (pin : Pin)
    (h : fromPid self.data_line_pid = some pin) :
    (WS2812B.init fromPid self).1 = true ∧
    (WS2812B.init fromPid self).2 = [Event.setDDROutput, Event.pinWrite false] := by
  simp [WS2812B.init, h]

/-- C5 witness: the theorem applied at a concrete resolvable device. -/
theorem init_success_effects_witness :
    (WS2812B.init exFromPid exDev).1 = true ∧
    (WS2812B.init exFromPid exDev).2 = [Event.setDDROutput, Event.pinWrite false] :=
  init_success_effects exFromPid exDev exPin rfl

/-- C6: in every successful upload each bit-pulse is immediately followed by
exactly one 1 µs margin delay (the trace is the margined pulse list), after the
last bit exactly one latch delay is issued — the trace holds exactly one 50 µs
delay event and it is the last event before `upload` returns. -/
theorem upload_margin_and_latch (fromPid : Nat → Option Pin) (self : WS2812B)
    (buffer : List RGB) (port : Nat) (pin : Pin)
    (h : fromPid self.data_line_pid = some pin) :
    (WS2812B.upload fromPid self buffer port).2.2 =
      margined (rawPulses pin.mask port (wireBits buffer)) ++ [Event.delayUs 50] ∧
    ((WS2812B.upload fromPid self buffer port).2.2).count (Event.delayUs 50) = 1 ∧
    ((WS2812B.upload fromPid self buffer port).2.2).getLast? =
      some (Event.delayUs 50) := by
  rw [upload_trace fromPid self buffer port pin h]
  refine ⟨by rw [margined_rawPulses], ?_, List.getLast?_concat _⟩
  simp [List.count_append, count_delay50_pulses]

/-- C6 witness: the theorem applied at a concrete device and buffer. -/
theorem upload_margin_and_latch_witness :
    ((WS2812B.upload exFromPid exDev exBuf 0).2.2 =
      margined (rawPulses exPin.mask 0 (wireBits exBuf)) ++ [Event.delayUs 50]) ∧
    ((WS2812B.upload exFromPid exDev exBuf 0).2.2).count (Event.delayUs 50) = 1 ∧
    ((WS2812B.upload exFromPid exDev exBuf 0).2.2).getLast? =
      some (Event.delayUs 50) :=
  upload_margin_and_latch exFromPid exDev exBuf 0 exPin rfl

/-- C7: for every identifier that resolves to a pin, `upload` on the empty
buffer emits the 50 µs latch delay as its only event, leaves the port byte
unchanged, and returns true. -/
theorem upload_empty_buffer (fromPid : Nat → Option Pin) (self : WS2812B)
    (port : Nat) (pin : Pin) (h : fromPid self.data_line_pid = some pin) :
    WS2812B.upload fromPid self [] port = (true, port, [Event.delayUs 50]) := by
  rw [upload_trace fromPid self [] port pin h]
  rfl

/-- C7 witness: the theorem applied at a concrete device. -/
theorem upload_empty_buffer_witness :
    WS2812B.upload exFromPid exDev [] 7 = (true, 7, [Event.delayUs 50]) :=
  upload_empty_buffer exFromPid exDev 7 exPin rfl

/-- C8: `upload` is deterministic across re-upload — calling `upload` again
with the same handle and buffer, starting from the port state the first call
left behind, produces an identical event trace, and each frame ends with the
50 µs latch delay of low state. -/
theorem upload_reupload_identical (fromPid : Nat → Option Pin) (self : WS2812B)
    (buffer : List RGB) (port : Nat) (pin : Pin)
    (h : fromPid self.data_line_pid = some pin) (hp : port < 256) :
    (WS2812B.upload fromPid self buffer
        ((WS2812B.upload fromPid self buffer port).2.1)).2.2 =
      (WS2812B.upload fromPid self buffer port).2.2 ∧
    ((WS2812B.upload fromPid self buffer port).2.2).getLast? =
      some (Event.delayUs 50) := by
  constructor
  · cases buffer with
    | nil =>
      simp [upload_trace fromPid self [] port pin h]
    | cons c rest =>
      have h1 := upload_trace fromPid self (c :: rest) port pin h
      have h2 := upload_trace fromPid self (c :: rest) (lowOf pin.mask port) pin h
      rw [h1]
      simp only [List.isEmpty_cons]
      rw [if_neg (by simp)]
      rw [h2]
      simp only []
      rw [pulsesFromBits_lowPort pin.mask port hp]
  · rw [upload_trace fromPid self buffer port pin h]
    exact List.getLast?_concat _

/-- C8 witness: the theorem applied at a concrete device and buffer. -/
theorem upload_reupload_identical_witness :
    ((WS2812B.upload exFromPid exDev exBuf
        ((WS2812B.upload exFromPid exDev exBuf 9).2.1)).2.2 =
      (WS2812B.upload exFromPid exDev exBuf 9).2.2) ∧
    ((WS2812B.upload exFromPid exDev exBuf 9).2.2).getLast? =
      some (Event.delayUs 50) :=
  upload_reupload_identical exFromPid exDev exBuf 9 exPin rfl (by norm_num)

/-- C9: both pulse primitives emit exactly one write of `port | mask` followed,
after their fixed nops, by one write of `port & !mask`, and any bit of the port
byte outside the mask is unchanged by either value. -/
theorem send_touches_only_masked_bit (mask port i : Nat) (hp : port < 256)
    (hb : mask.testBit i = false) :
    (send_0 mask port).2 = [Event.st (port ||| mask), Event.nop, Event.nop, Event.nop,
      Event.nop, Event.st (port &&& not8 mask)] ∧
    (send_1 mask port).2 = [Event.st (port ||| mask), Event.nop, Event.nop, Event.nop,
      Event.nop, Event.nop, Event.nop, Event.nop, Event.nop, Event.nop, Event.nop,
      Event.nop, Event.st (port &&& not8 mask)] ∧
    (port ||| mask).testBit i = port.testBit i ∧
    (port &&& not8 mask).testBit i = port.testBit i := by
  refine ⟨rfl, rfl, ?_, ?_⟩
  · simp [Nat.testBit_or, hb]
  · rcases lt_or_ge i 8 with h8 | h8
    · simp [Nat.testBit_and, testBit_not8, h8, hb]
    · have hp' : port.testBit i = false := by
        refine Nat.testBit_lt_two_pow (lt_of_lt_of_le hp ?_)
        calc (256 : Nat) = 2 ^ 8 := by norm_num
          _ ≤ 2 ^ i := Nat.pow_le_pow_right (by norm_num) h8
      simp [Nat.testBit_and, hp']

/-- C9 witness: the theorem applied at a concrete mask, port byte, and bit. -/
theorem send_touches_only_masked_bit_witness :
    ((send_0 2 5).2 = [Event.st (5 ||| 2), Event.nop, Event.nop, Event.nop,
      Event.nop, Event.st (5 &&& not8 2)] ∧
    (send_1 2 5).2 = [Event.st (5 ||| 2), Event.nop, Event.nop, Event.nop,
      Event.nop, Event.nop, Event.nop, Event.nop, Event.nop, Event.nop, Event.nop,
      Event.nop, Event.st (5 &&& not8 2)] ∧
    ((5 : Nat) ||| 2).testBit 0 = (5 : Nat).testBit 0 ∧
    ((5 : Nat) &&& not8 2).testBit 0 = (5 : Nat).testBit 0) :=
  send_touches_only_masked_bit 2 5 0 (by norm_num) (by decide)

/-- C10: `upload` terminates with result true for every finite buffer; the
inner bit loop, started at mask 0x80, emits exactly 8 margin delays per byte,
and the whole call performs exactly 24 margin delays and 48 port writes
(i.e. 24 pulses) per color. -/
theorem upload_loop_counts (fromPid : Nat → Option Pin) (self : WS2812B)
    (buffer : List RGB) (port : Nat) (pin : Pin)
    (h : fromPid self.data_line_pid = some pin) :
    (∀ data p, ((bitLoop pin.mask data 128 p).2).count (Event.delayUs 1) = 8) ∧
    ((WS2812B.upload fromPid self buffer port).2.2).count (Event.delayUs 1) =
      24 * buffer.length ∧
    stCount ((WS2812B.upload fromPid self buffer port).2.2) = 48 * buffer.length ∧
    (WS2812B.upload fromPid self buffer port).1 = true := by
  refine ⟨?_, ?_, ?_, ?_⟩
  · intro data p
    simp only [bitLoop_128]
    rw [count_delay1_pulses]
    rfl
  · rw [upload_trace fromPid self buffer port pin h]
    simp [List.count_append, count_delay1_pulses, wireBits_length]
  · rw [upload_trace fromPid self buffer port pin h]
    have hlatch : stCount [Event.delayUs 50] = 0 := rfl
    show stCount (pulsesFromBits pin.mask port (wireBits buffer) ++ [Event.delayUs 50]) =
      48 * buffer.length
    rw [stCount_append, stCount_pulses, wireBits_length, hlatch]
    ring
  · rw [upload_trace fromPid self buffer port pin h]

/-- C10 witness: the theorem applied at a concrete device and buffer. -/
theorem upload_loop_counts_witness :
    (∀ data p, ((bitLoop exPin.mask data 128 p).2).count (Event.delayUs 1) = 8) ∧
    ((WS2812B.upload exFromPid exDev exBuf 0).2.2).count (Event.delayUs 1) =
      24 * exBuf.length ∧
    stCount ((WS2812B.upload exFromPid exDev exBuf 0).2.2) = 48 * exBuf.length ∧
    (WS2812B.upload exFromPid exDev exBuf 0).1 = true :=
  upload_loop_counts exFromPid exDev exBuf 0 exPin rfl

end WS2812BDriver
